import Mathlib

/-!
Verification of the rclone IPFS backend core: root-hash state machine,
persistence engine (MFS and IPNS write-back with conflict detection),
pin reconciliation, shared root registry, and the DAG cumulative-size to
file-size conversion. Definitions are shallow embeddings of the Go source
in backend/ipfs/ipfs.go and the root persistence file; network calls are
modelled by a pure response environment (Api) plus an explicit trace of
issued calls, in issue order.
-/

namespace Ipfs

/-- Maximum size of an IPFS object data block after which the IPFS chunker
splits the original file (source constant MaxChunkSize = 262144). -/
def MaxChunkSize : Int := 262144

/-- Statistics of a DAG object as returned by the object/stat endpoint
(source structure api.ObjectStat). -/
structure ObjectStat where
  Hash : String := ""
  NumLinks : Int := 0
  BlockSize : Int := 0
  LinksSize : Int := 0
  DataSize : Int := 0
  CumulativeSize : Int := 0
deriving DecidableEq

/-- Convert IPFS object cumulative size to actual file size; only for small
files (single chunk). Mirrors the switch in source convertSmallFileSize. -/
def convertSmallFileSize (cumulativeSize : Int) : Int :=
  if cumulativeSize = 0 then 0
  else if cumulativeSize < 9 then cumulativeSize - 6
  else if cumulativeSize < 131 then cumulativeSize - 8
  else if cumulativeSize < 139 then cumulativeSize - 9
  else if cumulativeSize < 16388 then cumulativeSize - 11
  else if cumulativeSize < 16398 then cumulativeSize - 12
  else cumulativeSize - 14

/-- Convert IPFS object cumulative size to actual file size (source
Fs.convertToFileSize). Division and remainder are the truncating integer
division of the implementation language (Int.tdiv and Int.tmod). -/
def convertToFileSize (stat : ObjectStat) : Int :=
  let cumulativeSize := stat.CumulativeSize
  if cumulativeSize < MaxChunkSize + 123 then
    convertSmallFileSize cumulativeSize
  else
    let i := cumulativeSize - stat.BlockSize
    let maxSizeChunks := i.tdiv (MaxChunkSize + 14)
    let remainingSizeChunk := i.tmod (MaxChunkSize + 14)
    i - (maxSizeChunks * 14) - (remainingSizeChunk - convertSmallFileSize remainingSizeChunk)

/-- Step-function overhead exactly as the specification claim states it:
6 when size < 9, 8 when < 131, 9 when < 139, 11 when < 16388, 12 when
< 16398, and 14 otherwise. There is no special case at size 0. -/
def specStepOverhead (size : Int) : Int :=
  if size < 9 then 6
  else if size < 131 then 8
  else if size < 139 then 9
  else if size < 16388 then 11
  else if size < 16398 then 12
  else 14

/-- File size as the specification claim literally states it: below the
single-chunk threshold, cumulative size minus the step-function overhead;
above it, remaining = cumulative - blockSize minus 14 per full
(MaxChunk+14)-sized chunk minus the step-function overhead of the
remainder chunk. -/
def specFileSize (stat : ObjectStat) : Int :=
  if stat.CumulativeSize < MaxChunkSize + 123 then
    stat.CumulativeSize - specStepOverhead stat.CumulativeSize
  else
    let remaining := stat.CumulativeSize - stat.BlockSize
    let fullChunks := remaining.tdiv (MaxChunkSize + 14)
    let rest := remaining.tmod (MaxChunkSize + 14)
    remaining - 14 * fullChunks - specStepOverhead rest

/-- Amended step-function overhead: the overhead is 0 when the size is 0,
and otherwise follows the step function exactly as the claim states it. -/
def specStepOverheadAmended (size : Int) : Int :=
  if size = 0 then 0 else specStepOverhead size

/-- File size as the amended claim states it: the same formula with the
zero-at-zero step-function overhead in both the single-chunk case and the
remainder chunk of the multi-chunk case. -/
def specFileSizeAmended (stat : ObjectStat) : Int :=
  if stat.CumulativeSize < MaxChunkSize + 123 then
    stat.CumulativeSize - specStepOverheadAmended stat.CumulativeSize
  else
    let remaining := stat.CumulativeSize - stat.BlockSize
    let fullChunks := remaining.tdiv (MaxChunkSize + 14)
    let rest := remaining.tmod (MaxChunkSize + 14)
    remaining - 14 * fullChunks - specStepOverheadAmended rest

/-- Concrete stat input with cumulative size 0, used to separate the code
from the literal claim formula. -/
def statZero : ObjectStat := { CumulativeSize := 0 }

/-- One entry of an object/diff response (source structure api.ObjectChange).
The source Before and After fields are CID maps holding a single hash under
the key "/"; they are modelled as the optional hash itself. The source field
named Type is unused by the engine and is omitted here because Type is a
reserved word. -/
structure ObjectChange where
  Path : String
  Before : Option String := none
  After : Option String := none
deriving DecidableEq

/-- Response of the object/diff endpoint (source structure api.ObjectDiff). -/
structure ObjectDiff where
  Changes : List ObjectChange
deriving DecidableEq

/-- Response holding a single hash (source structure api.HasHash). -/
structure HasHash where
  Hash : String
deriving DecidableEq

/-- Response of the name/resolve endpoint (source structure api.HasPath). -/
structure HasPath where
  Path : String
deriving DecidableEq

/-- Response of the add endpoint (source structure api.FileAdded). -/
structure FileAdded where
  Hash : String
  Name : String := ""
  Size : String := ""
deriving DecidableEq

/-- Directory entry type constants (source FileEntryTypeFolder and
FileEntryTypeFile). -/
def FileEntryTypeFolder : Int := 1

/-- File entry type constant of the ls endpoint. -/
def FileEntryTypeFile : Int := 2

/-- One link of an ls response (source structure api.Link). The source field
named Type is modelled as EntryType because Type is a reserved word. -/
structure Link where
  Hash : String
  Name : String
  Size : Int := 0
  EntryType : Int := 2
deriving DecidableEq

/-- Network calls issued against the IPFS HTTP API, recorded in issue
order. Each constructor corresponds to one client method of the source
api package. -/
inductive Call where
  | add (name : String)
  | ls (p : String)
  | objectStat (p : String)
  | patchAddLink (root p target : String)
  | patchRmLink (root p : String)
  | objectNewDir
  | objectDiff (a b : String)
  | filesStat (p : String)
  | filesCp (src dst : String)
  | filesRm (p : String)
  | nameResolve (p : String)
  | namePublish (hash key : String)
  | pinAdd (hash : String) (recursive : Bool)
  | pinRm (hash : String)
deriving DecidableEq

/-- True for calls that write to the IPFS MFS (files/cp and files/rm). -/
def Call.isMfsWrite : Call → Bool
  | .filesCp _ _ => true
  | .filesRm _ => true
  | _ => false

/-- True for name/publish calls. -/
def Call.isNamePublish : Call → Bool
  | .namePublish _ _ => true
  | _ => false

/-- True for DAG link patch calls (object/patch/add-link and
object/patch/rm-link). -/
def Call.isPatch : Call → Bool
  | .patchAddLink _ _ _ => true
  | .patchRmLink _ _ => true
  | _ => false

/-- Pure response environment standing for the remote IPFS endpoint: one
deterministic answer per client method of the source api package. Errors
carry the remote error message; the distinction between decoded api errors
and transport errors is not modelled, as no verified claim depends on it. -/
structure Api where
  add : String → Except String FileAdded
  ls : String → Except String (List Link)
  objectStat : String → Except String ObjectStat
  objectPatchAddLink : String → String → String → Except String HasHash
  objectPatchRmLink : String → String → Except String HasHash
  objectNewDir : Except String HasHash
  objectDiff : String → String → Except String ObjectDiff
  filesStat : String → Except String HasHash
  filesCp : String → String → Except String Unit
  filesRm : String → Except String Unit
  nameResolve : String → Except String HasPath
  namePublish : String → String → Except String Unit
  pinAdd : String → Bool → Except String Unit
  pinRm : String → Except String Unit

/-- True when the first character list is an initial segment of the
second. -/
def listIsInitial : List Char → List Char → Bool
  | [], _ => true
  | _ :: _, [] => false
  | a :: as, b :: bs => a == b && listIsInitial as bs

/-- Model of the Go standard strings.HasPrefix on strings. -/
def goHasPre (s pat : String) : Bool :=
  listIsInitial pat.toList s.toList

/-- Model of the Go standard strings.Contains: the pattern is an initial
segment of some suffix of the string. -/
def goContains (s pat : String) : Bool :=
  s.toList.tails.any (fun suf => listIsInitial pat.toList suf)

/-- Model of the Go standard path.Split: the part of the path after the
final slash (the file component). -/
def goPathSplitFile (p : String) : String :=
  ((p.toList.reverse.takeWhile (fun c => c ≠ '/')).reverse).asString

/-- Model of the Go standard path.Split: the part of the path up to and
including the final slash (the directory component). -/
def goPathSplitDir (p : String) : String :=
  ((p.toList.reverse.dropWhile (fun c => c ≠ '/')).reverse).asString

/-- Model of the Go standard path.Split: (directory with trailing slash,
file component). -/
def goPathSplit (p : String) : String × String :=
  (goPathSplitDir p, goPathSplitFile p)

/-- Model of the Go standard path.Join on two elements: empty elements are
dropped and the rest joined with a slash. The dot-segment cleaning of the
Go function is not modelled, as every verified claim treats joined paths
as opaque keys of the response environment. -/
def goPathJoin (a b : String) : String :=
  if a = "" then b
  else if b = "" then a
  else a ++ "/" ++ b

/-- Three-element form of goPathJoin. -/
def goPathJoin3 (a b c : String) : String :=
  goPathJoin (goPathJoin a b) c

/-- Source removeTrailingSlash: despite its name it removes a leading
slash. -/
def removeTrailingSlash (s : String) : String :=
  if goHasPre s "/" then (s.toList.drop 1).asString else s

/-- Source listChangedPath: the paths of a list of diff changes. -/
def listChangedPath (changes : List ObjectChange) : List String :=
  changes.map (fun change => change.Path)

/-- Shared root state (source structure Root). The api client pointer is
passed separately to every operation; the update period and wait group are
concurrency plumbing with no bearing on the verified claims. -/
structure Root where
  lastPersistedHash : String
  hash : String
  ipnsPath : String := ""
  ipnsKey : String := ""
  isMFS : Bool := false
  isReadOnly : Bool := false
deriving DecidableEq

/-- Outcome of one persist attempt: normal return, or a runtime panic
raised by the source persist function when a pin update or write-back
fails. -/
inductive PersistOutcome where
  | ok
  | panicked (msg : String)
deriving DecidableEq

/-- Source updatePin: pin the new root hash recursively, then un-pin the
old one, treating an un-pin error whose message contains "not pinned" as
success. Returns the result together with the calls issued. -/
def updatePin (client : Api) (lastPersistedHash newHash : String) :
    Except String Unit × List Call :=
  match client.pinAdd newHash true with
  | .error e =>
    (.error ("could not pin hash on IPFS endpoint. Consistency not guaranteed.: " ++ e),
     [Call.pinAdd newHash true])
  | .ok _ =>
    match client.pinRm lastPersistedHash with
    | .error e =>
      if goContains e "not pinned" then
        (.ok (), [Call.pinAdd newHash true, Call.pinRm lastPersistedHash])
      else
        (.error ("could not un-pin old hash " ++ lastPersistedHash ++ ".: " ++ e),
         [Call.pinAdd newHash true, Call.pinRm lastPersistedHash])
    | .ok _ => (.ok (), [Call.pinAdd newHash true, Call.pinRm lastPersistedHash])

/-- Body of the change-application loop of source persistToMFS: for each
change, remove the path when a Before node exists, copy the After node by
hash when one exists, and abort on the error value left by those two steps.
The source overwrites the removal error with the copy result when both
sides are present; the model mirrors that. -/
def persistToMFSApply (api : Api) (changes : List ObjectChange) :
    Except String Unit × List Call :=
  match changes with
  | [] => (.ok (), [])
  | change :: rest =>
    let filePath := "/" ++ change.Path
    let (errRm, tRm) :=
      match change.Before with
      | some _ =>
        (match api.filesRm filePath with
         | .ok _ => none
         | .error e => some e, [Call.filesRm filePath])
      | none => (none, ([] : List Call))
    let (err, tCp) :=
      match change.After with
      | some afterHash =>
        let absolutePath := "/ipfs/" ++ afterHash
        (match api.filesCp absolutePath filePath with
         | .ok _ => none
         | .error e => some e, [Call.filesCp absolutePath filePath])
      | none => (errRm, ([] : List Call))
    match err with
    | some e =>
      (.error ("could not update MFS at path " ++ filePath ++ ": " ++ e), tRm ++ tCp)
    | none =>
      let (res, t) := persistToMFSApply api rest
      (res, tRm ++ tCp ++ t)

/-- Source persistToMFS: stat the MFS root, diff the baseline against the
new hash, and when the MFS root hash differs from the baseline compare the
external diff with the local diff, aborting with a concurrent-modification
error when a changed path of one is a string prefix of a changed path of
the other; otherwise apply the local changes to the MFS. -/
def persistToMFS (api : Api) (lastPersistedHash newHash : String) :
    Except String Unit × List Call :=
  match api.filesStat "/" with
  | .error e =>
    (.error ("could not obtain stats for MFS root directory: " ++ e), [Call.filesStat "/"])
  | .ok stat =>
    match api.objectDiff lastPersistedHash newHash with
    | .error e =>
      (.error e, [Call.filesStat "/", Call.objectDiff lastPersistedHash newHash])
    | .ok diff =>
      if stat.Hash ≠ lastPersistedHash then
        match api.objectDiff stat.Hash lastPersistedHash with
        | .error e =>
          (.error e, [Call.filesStat "/", Call.objectDiff lastPersistedHash newHash,
                      Call.objectDiff stat.Hash lastPersistedHash])
        | .ok externalDiff =>
          let externalChangedPaths := listChangedPath externalDiff.Changes
          let localChangedPaths := listChangedPath diff.Changes
          let pre := [Call.filesStat "/", Call.objectDiff lastPersistedHash newHash,
                      Call.objectDiff stat.Hash lastPersistedHash]
          if externalChangedPaths.any (fun externalChangedPath =>
               localChangedPaths.any (fun localChangedPath =>
                 goHasPre externalChangedPath localChangedPath ||
                 goHasPre localChangedPath externalChangedPath)) then
            (.error "Error: concurrent modification of the IPFS MFS. Consistency not guaranteed.",
             pre)
          else
            let (res, t) := persistToMFSApply api diff.Changes
            (res, pre ++ t)
      else
        let (res, t) := persistToMFSApply api diff.Changes
        (res, [Call.filesStat "/", Call.objectDiff lastPersistedHash newHash] ++ t)

/-- Source persistToIPNS: resolve the IPNS path, abort with a
concurrent-modification error when the resolved hash differs from the
persisted baseline, and otherwise publish the new hash under the owned
key. -/
def persistToIPNS (api : Api) (lastPersistedHash newHash ipnsPath ipnsKey : String) :
    Except String Unit × List Call :=
  match api.nameResolve ipnsPath with
  | .error e =>
    (.error ("could not resolve IPNS path " ++ ipnsPath ++ ": " ++ e),
     [Call.nameResolve ipnsPath])
  | .ok result =>
    let ipfsHash := goPathSplitFile result.Path
    if lastPersistedHash ≠ ipfsHash then
      (.error "concurrent modification of the IPFS IPNS. Consistency not guaranteed.",
       [Call.nameResolve ipnsPath])
    else
      match api.namePublish newHash ipnsKey with
      | .error e =>
        (.error ("could not update IPNS path " ++ ipnsPath ++ ": " ++ e),
         [Call.nameResolve ipnsPath, Call.namePublish newHash ipnsKey])
      | .ok _ => (.ok (), [Call.nameResolve ipnsPath, Call.namePublish newHash ipnsKey])

/-- Mode dispatch of source Root.persist: write back to MFS when in MFS
mode, to IPNS when an owned key exists, and do nothing otherwise. -/
def Root.persistWriteBack (api : Api) (r : Root) : Except String Unit × List Call :=
  if r.isMFS then persistToMFS api r.lastPersistedHash r.hash
  else if r.ipnsKey ≠ "" then
    persistToIPNS api r.lastPersistedHash r.hash r.ipnsPath r.ipnsKey
  else (.ok (), [])

/-- Source Root.persist: no-op when the hash equals the last persisted
hash; otherwise update the pins, write back according to the mode, and
advance lastPersistedHash. A pin or write-back error is raised as a panic
by the source, leaving the state unchanged. -/
def Root.persist (api : Api) (r : Root) : PersistOutcome × Root × List Call :=
  if r.hash = r.lastPersistedHash then (.ok, r, [])
  else
    match updatePin api r.lastPersistedHash r.hash with
    | (.error e, t) => (.panicked e, r, t)
    | (.ok _, t) =>
      match Root.persistWriteBack api r with
      | (.error e, t2) => (.panicked e, r, t ++ t2)
      | (.ok _, t2) => (.ok, { r with lastPersistedHash := r.hash }, t ++ t2)

/-- Filesystem handle state (source structure Fs). The shared root is
embedded by value; name, features and the api client are plumbing passed
separately. The source cache field named with a leading underscore is
modelled as emptyDirHashCache with the same empty-string sentinel. -/
structure Fs where
  root : String := ""
  optIpfsRoot : String := ""
  ipfsRoot : Root
  emptyDirHashCache : String := ""
deriving DecidableEq

/-- Remote object handle (source structure Object). -/
structure Object where
  remote : String
  size : Int := 0
  ipfsHash : String := ""
deriving DecidableEq

/-- Source Fs.relativePath: join the configured root with the remote name
and strip a leading slash. -/
def Fs.relativePath (f : Fs) (remote : String) : String :=
  removeTrailingSlash (goPathJoin f.root remote)

/-- Source Fs.checkReadOnly: the dedicated read-only error when the shared
root is read only, and nothing otherwise. -/
def Fs.checkReadOnly (f : Fs) : Option String :=
  if f.ipfsRoot.isReadOnly then
    some ("IPFS path " ++ f.optIpfsRoot ++ " is read only!")
  else none

/-- Source Fs.emptyDirHash: fetch and cache the hash of the empty
directory object, issuing object/new only when the cache is empty. -/
def Fs.emptyDirHash (api : Api) (f : Fs) :
    Except String (String × Fs) × List Call :=
  if f.emptyDirHashCache = "" then
    match api.objectNewDir with
    | .error e => (.error e, [Call.objectNewDir])
    | .ok result =>
      (.ok (result.Hash, { f with emptyDirHashCache := result.Hash }), [Call.objectNewDir])
  else (.ok (f.emptyDirHashCache, f), [])

/-- Source newObject combined with Fs.NewObject: stat the remote path
under the current root hash, determine through the parent listing whether
the entry is a file, and build the object with the converted size. The
mapping of decoded api errors to the not-found and not-a-file markers is
collapsed into the error message. -/
def Fs.newObject (api : Api) (f : Fs) (remote : String) :
    Except String Object × List Call :=
  let rootHash := f.ipfsRoot.hash
  let absolutePath := goPathJoin rootHash (f.relativePath remote)
  match api.objectStat absolutePath with
  | .error e => (.error e, [Call.objectStat absolutePath])
  | .ok stat =>
    let dir := (goPathSplit absolutePath).1
    let file := (goPathSplit absolutePath).2
    if dir ≠ rootHash then
      match api.ls dir with
      | .error e => (.error e, [Call.objectStat absolutePath, Call.ls dir])
      | .ok links =>
        match links.find? (fun link => link.Name == file) with
        | some link =>
          if link.EntryType = FileEntryTypeFile then
            (.ok { remote := remote, size := convertToFileSize stat, ipfsHash := stat.Hash },
             [Call.objectStat absolutePath, Call.ls dir])
          else (.error "fs.ErrorNotAFile", [Call.objectStat absolutePath, Call.ls dir])
        | none => (.error "fs.ErrorNotAFile", [Call.objectStat absolutePath, Call.ls dir])
    else (.error "fs.ErrorNotAFile", [Call.objectStat absolutePath])

/-- Source Fs.Put: fail fast when read only, add the file content, patch
the current root hash with a link to the added file, store the patched
hash, and stat the freshly written object. -/
def Fs.put (api : Api) (f : Fs) (srcRemote : String) :
    Option String × Fs × List Call :=
  match f.checkReadOnly with
  | some e => (some e, f, [])
  | none =>
    let file := (goPathSplit srcRemote).2
    match api.add file with
    | .error e => (some e, f, [Call.add file])
    | .ok fileAdded =>
      let objectPath := f.relativePath srcRemote
      match api.objectPatchAddLink f.ipfsRoot.hash objectPath fileAdded.Hash with
      | .error e =>
        (some e, f, [Call.add file, Call.patchAddLink f.ipfsRoot.hash objectPath fileAdded.Hash])
      | .ok result =>
        let f2 := { f with ipfsRoot := { f.ipfsRoot with hash := result.Hash } }
        let (res, t) := f2.newObject api srcRemote
        let tAll := [Call.add file,
                     Call.patchAddLink f.ipfsRoot.hash objectPath fileAdded.Hash] ++ t
        match res with
        | .error e => (some e, f2, tAll)
        | .ok _ => (none, f2, tAll)

/-- Source Fs.PutStream: delegates to Fs.Put. -/
def Fs.putStream (api : Api) (f : Fs) (srcRemote : String) :
    Option String × Fs × List Call :=
  f.put api srcRemote

/-- Source Object.Update: delegates to Put of the owning filesystem with
the source object info; the refresh of the object fields is not modelled
as no claim depends on it. -/
def Object.update (api : Api) (f : Fs) (srcRemote : String) :
    Option String × Fs × List Call :=
  f.put api srcRemote

/-- Source Fs.Mkdir: fail fast when read only, obtain the empty directory
hash, return success without patching when the path already stats, and
otherwise patch a link to the empty directory into the root hash. -/
def Fs.mkdir (api : Api) (f : Fs) (dir : String) :
    Option String × Fs × List Call :=
  match f.checkReadOnly with
  | some e => (some e, f, [])
  | none =>
    match f.emptyDirHash api with
    | (.error e, t) => (some e, f, t)
    | (.ok (emptyDir, f1), t) =>
      let dirPath := f1.relativePath dir
      let statPath := goPathJoin f1.ipfsRoot.hash dirPath
      match api.objectStat statPath with
      | .ok _ => (none, f1, t ++ [Call.objectStat statPath])
      | .error _ =>
        match api.objectPatchAddLink f1.ipfsRoot.hash dirPath emptyDir with
        | .error e =>
          (some e, f1,
           t ++ [Call.objectStat statPath, Call.patchAddLink f1.ipfsRoot.hash dirPath emptyDir])
        | .ok result =>
          (none, { f1 with ipfsRoot := { f1.ipfsRoot with hash := result.Hash } },
           t ++ [Call.objectStat statPath, Call.patchAddLink f1.ipfsRoot.hash dirPath emptyDir])

/-- Source Fs.Rmdir: fail fast when read only, stat the directory, refuse
when it still has links, and otherwise patch the link out of the root
hash. -/
def Fs.rmdir (api : Api) (f : Fs) (dir : String) :
    Option String × Fs × List Call :=
  match f.checkReadOnly with
  | some e => (some e, f, [])
  | none =>
    let absolutePath := goPathJoin f.ipfsRoot.hash (f.relativePath dir)
    match api.objectStat absolutePath with
    | .error e => (some e, f, [Call.objectStat absolutePath])
    | .ok stat =>
      if stat.NumLinks > 0 then
        (some "fs.ErrorDirectoryNotEmpty", f, [Call.objectStat absolutePath])
      else
        let dirPath := f.relativePath dir
        match api.objectPatchRmLink f.ipfsRoot.hash dirPath with
        | .error e =>
          (some e, f, [Call.objectStat absolutePath, Call.patchRmLink f.ipfsRoot.hash dirPath])
        | .ok result =>
          (none, { f with ipfsRoot := { f.ipfsRoot with hash := result.Hash } },
           [Call.objectStat absolutePath, Call.patchRmLink f.ipfsRoot.hash dirPath])

/-- Source Fs.Copy: fail fast when read only, patch a link to the source
object hash into the root hash, store it, and stat the written object. -/
def Fs.copy (api : Api) (f : Fs) (src : Object) (remote : String) :
    Option String × Fs × List Call :=
  match f.checkReadOnly with
  | some e => (some e, f, [])
  | none =>
    let objectPath := f.relativePath remote
    match api.objectPatchAddLink f.ipfsRoot.hash objectPath src.ipfsHash with
    | .error e =>
      (some e, f, [Call.patchAddLink f.ipfsRoot.hash objectPath src.ipfsHash])
    | .ok result =>
      let f2 := { f with ipfsRoot := { f.ipfsRoot with hash := result.Hash } }
      let (res, t) := f2.newObject api remote
      let tAll := [Call.patchAddLink f.ipfsRoot.hash objectPath src.ipfsHash] ++ t
      match res with
      | .error e => (some e, f2, tAll)
      | .ok _ => (none, f2, tAll)

/-- Source Object.Remove: fail fast when read only, then patch the object
link out of the root hash. -/
def Object.remove (api : Api) (f : Fs) (o : Object) :
    Option String × Fs × List Call :=
  match f.checkReadOnly with
  | some e => (some e, f, [])
  | none =>
    let p := f.relativePath o.remote
    match api.objectPatchRmLink f.ipfsRoot.hash p with
    | .error e => (some e, f, [Call.patchRmLink f.ipfsRoot.hash p])
    | .ok result =>
      (none, { f with ipfsRoot := { f.ipfsRoot with hash := result.Hash } },
       [Call.patchRmLink f.ipfsRoot.hash p])

/-- Source Fs.Move: copy then remove the source object, with no joint
transactionality; the remove runs against the state left by the copy. -/
def Fs.move (api : Api) (f : Fs) (src : Object) (remote : String) :
    Option String × Fs × List Call :=
  match f.checkReadOnly with
  | some e => (some e, f, [])
  | none =>
    match f.copy api src remote with
    | (some e, f1, t) => (some e, f1, t)
    | (none, f1, t) =>
      match Object.remove api f1 src with
      | (some e, f2, t2) => (some e, f2, t ++ t2)
      | (none, f2, t2) => (none, f2, t ++ t2)

/-- Source Fs.DirMove: fail fast when read only, refuse when the
destination already stats, fetch the source directory hash, patch a link
to it at the destination and store the intermediate root hash, then patch
the source link out and store the final hash. srcFsRoot is the root field
of the source filesystem handle. -/
def Fs.dirMove (api : Api) (f : Fs) (srcFsRoot : String) (srcRemote dstRemote : String) :
    Option String × Fs × List Call :=
  match f.checkReadOnly with
  | some e => (some e, f, [])
  | none =>
    let dstRelativePath := f.relativePath dstRemote
    let destAbsolutePath := goPathJoin f.ipfsRoot.hash dstRelativePath
    match api.objectStat destAbsolutePath with
    | .ok _ => (some "fs.ErrorDirExists", f, [Call.objectStat destAbsolutePath])
    | .error _ =>
      let srcRelativePath := removeTrailingSlash (goPathJoin srcFsRoot srcRemote)
      let srcAbsolutePath := goPathJoin f.ipfsRoot.hash srcRelativePath
      match api.objectStat srcAbsolutePath with
      | .error e =>
        (some e, f, [Call.objectStat destAbsolutePath, Call.objectStat srcAbsolutePath])
      | .ok srcStat =>
        match api.objectPatchAddLink f.ipfsRoot.hash dstRelativePath srcStat.Hash with
        | .error e =>
          (some e, f,
           [Call.objectStat destAbsolutePath, Call.objectStat srcAbsolutePath,
            Call.patchAddLink f.ipfsRoot.hash dstRelativePath srcStat.Hash])
        | .ok result =>
          let f1 := { f with ipfsRoot := { f.ipfsRoot with hash := result.Hash } }
          match api.objectPatchRmLink f1.ipfsRoot.hash srcRelativePath with
          | .error e =>
            (some e, f1,
             [Call.objectStat destAbsolutePath, Call.objectStat srcAbsolutePath,
              Call.patchAddLink f.ipfsRoot.hash dstRelativePath srcStat.Hash,
              Call.patchRmLink f1.ipfsRoot.hash srcRelativePath])
          | .ok result2 =>
            (none, { f1 with ipfsRoot := { f1.ipfsRoot with hash := result2.Hash } },
             [Call.objectStat destAbsolutePath, Call.objectStat srcAbsolutePath,
              Call.patchAddLink f.ipfsRoot.hash dstRelativePath srcStat.Hash,
              Call.patchRmLink f1.ipfsRoot.hash srcRelativePath])

/-- Inner loop of source Fs.MergeDirs: fold the links of one merged
directory into the working root hash, threading the returned hash through
consecutive patch calls. -/
def Fs.mergeLinks (api : Api) (workingRootHash srcPath : String) (links : List Link) :
    Except String String × List Call :=
  match links with
  | [] => (.ok workingRootHash, [])
  | link :: rest =>
    let relativePath := goPathJoin srcPath link.Name
    match api.objectPatchAddLink workingRootHash relativePath link.Hash with
    | .error e => (.error e, [Call.patchAddLink workingRootHash relativePath link.Hash])
    | .ok result =>
      let (res, t) := Fs.mergeLinks api result.Hash srcPath rest
      (res, Call.patchAddLink workingRootHash relativePath link.Hash :: t)

/-- Outer loop of source Fs.MergeDirs over the directories after the
first: list each directory, fold its links into the first directory, then
patch the merged directory link out, threading the working root hash. -/
def Fs.mergeDirsLoop (api : Api) (f : Fs) (srcPath workingRootHash : String)
    (dirs : List String) : Except String String × List Call :=
  match dirs with
  | [] => (.ok workingRootHash, [])
  | dir :: rest =>
    let absolutePath := goPathJoin3 workingRootHash f.root dir
    match api.ls absolutePath with
    | .error e => (.error e, [Call.ls absolutePath])
    | .ok links =>
      match Fs.mergeLinks api workingRootHash srcPath links with
      | (.error e, t) => (.error e, Call.ls absolutePath :: t)
      | (.ok working2, t) =>
        match api.objectPatchRmLink working2 (f.relativePath dir) with
        | .error e =>
          (.error e, Call.ls absolutePath :: (t ++ [Call.patchRmLink working2 (f.relativePath dir)]))
        | .ok result =>
          let (res, t2) := Fs.mergeDirsLoop api f srcPath result.Hash rest
          (res, Call.ls absolutePath ::
            (t ++ [Call.patchRmLink working2 (f.relativePath dir)] ++ t2))

/-- Source Fs.MergeDirs: fail fast when read only, then fold every
directory after the first into the first one on a local working root hash,
storing the final hash only after the whole loop succeeded. The source
indexes dirs from zero, so the first directory and the rest are passed
separately. -/
def Fs.mergeDirs (api : Api) (f : Fs) (firstDirectory : String) (restDirs : List String) :
    Option String × Fs × List Call :=
  match f.checkReadOnly with
  | some e => (some e, f, [])
  | none =>
    let srcPath := f.relativePath firstDirectory
    match Fs.mergeDirsLoop api f srcPath f.ipfsRoot.hash restDirs with
    | (.error e, t) => (some e, f, t)
    | (.ok working, t) =>
      (none, { f with ipfsRoot := { f.ipfsRoot with hash := working } }, t)

/-- Source Fs.Purge: fail fast when read only; at the filesystem root
replace the root hash with the empty directory hash, and otherwise patch
the configured root link out. The dir parameter of the source method is
unused by its body. -/
def Fs.purge (api : Api) (f : Fs) : Option String × Fs × List Call :=
  match f.checkReadOnly with
  | some e => (some e, f, [])
  | none =>
    if f.root = "" then
      match f.emptyDirHash api with
      | (.error e, t) => (some e, f, t)
      | (.ok (emptyDir, f1), t) =>
        (none, { f1 with ipfsRoot := { f1.ipfsRoot with hash := emptyDir } }, t)
    else
      match api.objectPatchRmLink f.ipfsRoot.hash f.root with
      | .error e => (some e, f, [Call.patchRmLink f.ipfsRoot.hash f.root])
      | .ok result =>
        (none, { f with ipfsRoot := { f.ipfsRoot with hash := result.Hash } },
         [Call.patchRmLink f.ipfsRoot.hash f.root])

/-- Backend configuration (source structure Options): endpoint URL, root
ref path and update period. These three fields are the identity key of the
shared root cache. -/
structure Options where
  Endpoint : String
  IpfsRoot : String := ""
  UpdatePeriod : Int := 0
deriving DecidableEq

/-- Process-wide shared root registry (source SharedRoots and the lookup
in NewFs). The Go map from Options to root pointers is modelled as an
association list from Options to allocation numbers; nextRef is the next
fresh allocation, standing for pointer identity of a newly constructed
Root. -/
structure SharedRoots where
  cache : List (Options × Nat) := []
  nextRef : Nat := 0
deriving DecidableEq

/-- Cache lookup of source NewFs (the read of sharedRoot.cache at the
options key). -/
def SharedRoots.lookup (s : SharedRoots) (o : Options) : Option Nat :=
  (s.cache.find? (fun p => p.1 = o)).map Prod.snd

/-- Cache update of source NewFs: return the shared root for the options
when one exists, and otherwise construct a fresh one and store it under
the options key. -/
def SharedRoots.getOrCreate (s : SharedRoots) (o : Options) : Nat × SharedRoots :=
  match s.lookup o with
  | some r => (r, s)
  | none => (s.nextRef, { cache := (o, s.nextRef) :: s.cache, nextRef := s.nextRef + 1 })

/-- Registry invariant: every stored allocation is below the next fresh
one, and distinct entries have distinct keys and distinct allocations. -/
def SharedRoots.Inv (s : SharedRoots) : Prop :=
  (∀ p ∈ s.cache, p.2 < s.nextRef) ∧
  s.cache.Pairwise (fun p q => p.1 ≠ q.1 ∧ p.2 ≠ q.2)

/-- Response environment answering every call with an error; concrete
fixtures override the fields they need. -/
def apiAllErr : Api where
  add := fun _ => .error "no"
  ls := fun _ => .error "no"
  objectStat := fun _ => .error "no"
  objectPatchAddLink := fun _ _ _ => .error "no"
  objectPatchRmLink := fun _ _ => .error "no"
  objectNewDir := .error "no"
  objectDiff := fun _ _ => .error "no"
  filesStat := fun _ => .error "no"
  filesCp := fun _ _ => .error "no"
  filesRm := fun _ => .error "no"
  nameResolve := fun _ => .error "no"
  namePublish := fun _ _ => .error "no"
  pinAdd := fun _ _ => .error "no"
  pinRm := fun _ => .error "no"

/-- Root fixture whose hash is already persisted. -/
def rootEq : Root := { lastPersistedHash := "h", hash := "h", isMFS := true }

/-- Root fixture in MFS mode with an unpersisted hash transition h0 to
h1. -/
def rootNe : Root := { lastPersistedHash := "h0", hash := "h1", isMFS := true }

/-- Environment where pinning succeeds and un-pinning reports that the
hash is not pinned. -/
def apiPinNotPinned : Api :=
  { apiAllErr with pinAdd := fun _ _ => .ok (), pinRm := fun _ => .error "pin is not pinned" }

/-- Environment where pinning the new hash fails outright. -/
def apiPinAddFails : Api :=
  { apiAllErr with pinAdd := fun _ _ => .error "boom" }

/-- Environment where pinning succeeds, the MFS root was changed
externally to hext, the local diff h0 to h1 changed path a/b, and the
external diff hext to h0 changed path a/b/c: a prefix-related conflict. -/
def apiMfsConflict : Api :=
  { apiAllErr with
    pinAdd := fun _ _ => .ok ()
    pinRm := fun _ => .ok ()
    filesStat := fun _ => .ok { Hash := "hext" }
    objectDiff := fun a _ =>
      if a = "hext" then .ok { Changes := [{ Path := "a/b/c" }] }
      else .ok { Changes := [{ Path := "a/b" }] } }

/-- Environment where the IPNS name resolves to a hash hx that differs
from the persisted baseline h0, and pinning succeeds. -/
def apiIpnsConflict : Api :=
  { apiAllErr with
    pinAdd := fun _ _ => .ok ()
    pinRm := fun _ => .ok ()
    nameResolve := fun _ => .ok { Path := "/ipfs/hx" } }

/-- Root fixture in IPNS mode with an owned key and an unpersisted hash
transition h0 to h1. -/
def rootIpnsNe : Root :=
  { lastPersistedHash := "h0", hash := "h1", ipnsPath := "/ipns/k1", ipnsKey := "key1" }

/-- Two distinct backend configurations. -/
def optsA : Options := { Endpoint := "http://localhost:5001" }

/-- A second configuration differing in the root path. -/
def optsB : Options := { Endpoint := "http://localhost:5001", IpfsRoot := "/ipns/k1" }

/-- Writable filesystem fixture whose root hash is h0 and whose empty-dir
cache is cold. -/
def fsW : Fs := { ipfsRoot := { lastPersistedHash := "h0", hash := "h0" } }

/-- Read-only filesystem fixture. -/
def fsRO : Fs :=
  { optIpfsRoot := "/ipfs/Qm",
    ipfsRoot := { lastPersistedHash := "h", hash := "h", isReadOnly := true } }

/-- Environment where creating the empty directory yields hash he and
every stat succeeds on an empty stat. -/
def apiStatOk : Api :=
  { apiAllErr with
    objectNewDir := .ok { Hash := "he" }
    objectStat := fun _ => .ok { } }

/-- Environment where adding a file succeeds but every patch fails. -/
def apiPutFail : Api :=
  { apiAllErr with add := fun _ => .ok { Hash := "fa" } }

/-- Environment where creating the empty directory succeeds but the stat
and the patch fail. -/
def apiMkdirFail : Api :=
  { apiAllErr with objectNewDir := .ok { Hash := "he" } }

/-- Environment for a directory move whose destination is absent, whose
source stats to hash S, and whose patches fail. -/
def apiDirMoveFail1 : Api :=
  { apiAllErr with
    objectStat := fun p => if p = "h0/sub" then .ok { Hash := "S" } else .error "nf" }

/-- Environment for a directory move whose add-link patch succeeds with
intermediate hash h1 and whose rm-link patch then fails. -/
def apiDirMoveFail : Api :=
  { apiAllErr with
    objectStat := fun p => if p = "h0/sub" then .ok { Hash := "S" } else .error "nf"
    objectPatchAddLink := fun _ _ _ => .ok { Hash := "h1" }
    objectPatchRmLink := fun _ _ => .error "boom" }

/-- Environment where the copy phase of a move fully succeeds (patch to
h1, stat and listing of the written object) and the remove patch fails. -/
def apiMoveRmFail : Api :=
  { apiAllErr with
    objectPatchAddLink := fun _ _ _ => .ok { Hash := "h1" }
    objectStat := fun _ => .ok { }
    ls := fun _ => .ok [{ Hash := "x", Name := "r" }]
    objectPatchRmLink := fun _ _ => .error "boom" }

/-- Filesystem fixture rooted at the subdirectory sub of the shared DAG. -/
def fsWSub : Fs := { root := "sub", ipfsRoot := { lastPersistedHash := "h0", hash := "h0" } }

/-- Object fixture used as a copy and move source. -/
def objS : Object := { remote := "o", ipfsHash := "S" }

end Ipfs

namespace Ipfs

theorem convertSmallFileSize_eq_sub_overhead (n : Int) :
    convertSmallFileSize n = n - specStepOverheadAmended n := by
  unfold convertSmallFileSize specStepOverheadAmended specStepOverhead
  split_ifs <;> omega

/-- C5 counterexample: the size-conversion claim as literally stated fails
at cumulative size 0, where the code returns 0 but the claimed
step-function formula yields -6. -/
theorem claim5_counterexample :
    convertToFileSize statZero = 0 ∧ specFileSize statZero = -6 ∧
    convertToFileSize statZero ≠ specFileSize statZero :=
  ⟨by decide, by decide, by decide⟩

/-- C5 (amended): for every stat input, the converted file size equals the
claimed step-function formula amended only by a zero overhead at size 0:
below the single-chunk threshold it is the cumulative size minus the
amended step overhead, and above it remaining = cumulative - blockSize
minus 14 for each full (MaxChunk+14)-sized chunk minus the amended step
overhead of the remainder chunk. -/
theorem claim5_size_conversion (stat : ObjectStat) :
    convertToFileSize stat = specFileSizeAmended stat := by
  simp only [convertToFileSize, specFileSizeAmended]
  split
  · exact convertSmallFileSize_eq_sub_overhead stat.CumulativeSize
  · rw [convertSmallFileSize_eq_sub_overhead]; ring

/-- C2: persist is a no-op when the hash equals the last persisted hash,
returning at once with no network call and no state change; consequently a
second persist right after a successful one issues zero network calls. -/
theorem claim2_persist_noop_idempotent :
    (∀ (api : Api) (r : Root), r.hash = r.lastPersistedHash →
        Root.persist api r = (.ok, r, [])) ∧
    (∀ (api : Api) (r r1 : Root) (t1 : List Call),
        Root.persist api r = (.ok, r1, t1) →
        Root.persist api r1 = (.ok, r1, [])) := by
  have hnoop : ∀ (api : Api) (r : Root), r.hash = r.lastPersistedHash →
      Root.persist api r = (.ok, r, []) := by
    intro api r h
    simp [Root.persist, h]
  refine ⟨hnoop, ?_⟩
  intro api r r1 t1 h
  have hr1 : r1.hash = r1.lastPersistedHash := by
    by_cases hc : r.hash = r.lastPersistedHash
    · have heq := (hnoop api r hc).symm.trans h
      simp only [Prod.mk.injEq, true_and] at heq
      rw [← heq.1]
      exact hc
    · unfold Root.persist at h
      rw [if_neg hc] at h
      rcases hup : updatePin api r.lastPersistedHash r.hash with ⟨res, t⟩
      rw [hup] at h
      cases res with
      | error e => simp at h
      | ok u =>
        rcases hwb : Root.persistWriteBack api r with ⟨res2, t2⟩
        rw [hwb] at h
        cases res2 with
        | error e => simp at h
        | ok u2 =>
          simp only [Prod.mk.injEq, true_and] at h
          rw [← h.1]
  exact hnoop api r1 hr1

/-- C2 witness: on the concrete fixture whose hash is already persisted,
persist returns at once with no call, and so does the follow-up persist. -/
theorem claim2_witness :
    Root.persist apiAllErr rootEq = (.ok, rootEq, []) :=
  claim2_persist_noop_idempotent.2 apiAllErr rootEq rootEq []
    (claim2_persist_noop_idempotent.1 apiAllErr rootEq rfl)

/-- C3: updatePin issues PinAdd of the new hash (recursively) first, so
that any PinRemove of the old hash comes after it; an un-pin failure whose
message contains "not pinned" is treated as success; when updatePin fails,
persist propagates the failure as a panic with lastPersistedHash (and the
whole root state) unchanged and performs no retry; and on every effective
persist the updatePin calls form a prefix of the persist trace, so PinAdd
of the new hash precedes every other call. -/
theorem claim3_pin_reconciliation :
    (∀ (api : Api) (lph h : String),
        (updatePin api lph h).2 = [Call.pinAdd h true] ∨
        (updatePin api lph h).2 = [Call.pinAdd h true, Call.pinRm lph]) ∧
    (∀ (api : Api) (lph h e : String),
        api.pinAdd h true = .ok () →
        api.pinRm lph = .error e →
        goContains e "not pinned" = true →
        (updatePin api lph h).1 = .ok ()) ∧
    (∀ (api : Api) (r : Root) (e : String) (t : List Call),
        r.hash ≠ r.lastPersistedHash →
        updatePin api r.lastPersistedHash r.hash = (.error e, t) →
        Root.persist api r = (.panicked e, r, t)) ∧
    (∀ (api : Api) (r : Root),
        r.hash ≠ r.lastPersistedHash →
        ∃ rest, (Root.persist api r).2.2 =
          (updatePin api r.lastPersistedHash r.hash).2 ++ rest) := by
  refine ⟨?_, ?_, ?_, ?_⟩
  · intro api lph h
    unfold updatePin
    rcases api.pinAdd h true with e | u
    · left; rfl
    · rcases api.pinRm lph with e | u
      · by_cases hg : goContains e "not pinned" = true
        · right; simp [hg]
        · right; simp [hg]
      · right; rfl
  · intro api lph h e h1 h2 h3
    simp [updatePin, h1, h2, h3]
  · intro api r e t hne hup
    unfold Root.persist
    rw [if_neg hne, hup]
  · intro api r hne
    unfold Root.persist
    rw [if_neg hne]
    rcases hup : updatePin api r.lastPersistedHash r.hash with ⟨res, t⟩
    cases res with
    | error e => exact ⟨[], by simp⟩
    | ok u =>
      rcases hwb : Root.persistWriteBack api r with ⟨res2, t2⟩
      cases res2 with
      | error e => exact ⟨t2, by simp⟩
      | ok u2 => exact ⟨t2, by simp⟩

/-- C3 witness: with a concrete un-pin failure reporting "not pinned" the
update succeeds, and with a concrete pin failure persist panics leaving the
root unchanged after issuing only the pin call. -/
theorem claim3_witness :
    (updatePin apiPinNotPinned "h0" "h1").1 = .ok () ∧
    Root.persist apiPinAddFails rootNe =
      (.panicked "could not pin hash on IPFS endpoint. Consistency not guaranteed.: boom",
       rootNe, [Call.pinAdd "h1" true]) :=
  ⟨claim3_pin_reconciliation.2.1 apiPinNotPinned "h0" "h1" "pin is not pinned" rfl rfl
      (by decide),
   claim3_pin_reconciliation.2.2.1 apiPinAddFails rootNe
      "could not pin hash on IPFS endpoint. Consistency not guaranteed.: boom"
      [Call.pinAdd "h1" true] (by decide) rfl⟩

/-- C4: when the IPNS path resolves to a hash different from the persisted
baseline, the IPNS write-back returns the concurrent-modification error and
never publishes; and a publish call can appear in the trace only when the
resolved hash equals the baseline. -/
theorem claim4_ipns_conflict_detection :
    (∀ (api : Api) (lph h p k : String) (res : HasPath),
        api.nameResolve p = .ok res →
        goPathSplitFile res.Path ≠ lph →
        (persistToIPNS api lph h p k).1 =
          .error "concurrent modification of the IPFS IPNS. Consistency not guaranteed." ∧
        ∀ c ∈ (persistToIPNS api lph h p k).2, c.isNamePublish = false) ∧
    (∀ (api : Api) (lph h p k a b : String),
        Call.namePublish a b ∈ (persistToIPNS api lph h p k).2 →
        ∃ res : HasPath, api.nameResolve p = .ok res ∧ goPathSplitFile res.Path = lph) := by
  constructor
  · intro api lph h p k res hres hne
    unfold persistToIPNS
    rw [hres]
    dsimp only
    rw [if_pos (fun hx => hne hx.symm)]
    exact ⟨rfl, by simp [Call.isNamePublish]⟩
  · intro api lph h p k a b hmem
    unfold persistToIPNS at hmem
    split at hmem
    · simp at hmem
    · rename_i res hres
      dsimp only at hmem
      split at hmem
      · simp at hmem
      · rename_i hcond
        push_neg at hcond
        exact ⟨res, hres, hcond.symm⟩

theorem updatePin_trace_shape (api : Api) (lph h : String) :
    (updatePin api lph h).2 = [Call.pinAdd h true] ∨
    (updatePin api lph h).2 = [Call.pinAdd h true, Call.pinRm lph] := by
  unfold updatePin
  rcases api.pinAdd h true with e | u
  · left; rfl
  · rcases api.pinRm lph with e | u
    · by_cases hg : goContains e "not pinned" = true
      · right; simp [hg]
      · right; simp [hg]
    · right; rfl

theorem persistToMFS_conflict_eq (api : Api) (lph h : String) (st : HasHash)
    (diff ediff : ObjectDiff)
    (hstat : api.filesStat "/" = .ok st)
    (hdiff : api.objectDiff lph h = .ok diff)
    (hsne : st.Hash ≠ lph)
    (hediff : api.objectDiff st.Hash lph = .ok ediff)
    (hconf : ∃ pe ∈ listChangedPath ediff.Changes, ∃ pl ∈ listChangedPath diff.Changes,
        goHasPre pe pl = true ∨ goHasPre pl pe = true) :
    persistToMFS api lph h =
      (.error "Error: concurrent modification of the IPFS MFS. Consistency not guaranteed.",
       [Call.filesStat "/", Call.objectDiff lph h, Call.objectDiff st.Hash lph]) := by
  have hany : (listChangedPath ediff.Changes).any (fun externalChangedPath =>
      (listChangedPath diff.Changes).any (fun localChangedPath =>
        goHasPre externalChangedPath localChangedPath ||
        goHasPre localChangedPath externalChangedPath)) = true := by
    rw [List.any_eq_true]
    obtain ⟨pe, hpe, pl, hpl, hor⟩ := hconf
    refine ⟨pe, hpe, ?_⟩
    rw [List.any_eq_true]
    refine ⟨pl, hpl, ?_⟩
    rcases hor with h1 | h1 <;> simp [h1]
  unfold persistToMFS
  rw [hstat]
  dsimp only
  rw [hdiff]
  dsimp only
  rw [if_pos hsne, hediff]
  dsimp only
  rw [if_pos hany]

theorem persistToIPNS_conflict_eq (api : Api) (lph h p k : String) (res : HasPath)
    (hres : api.nameResolve p = .ok res)
    (hne : goPathSplitFile res.Path ≠ lph) :
    persistToIPNS api lph h p k =
      (.error "concurrent modification of the IPFS IPNS. Consistency not guaranteed.",
       [Call.nameResolve p]) := by
  unfold persistToIPNS
  rw [hres]
  dsimp only
  rw [if_pos (fun hx => hne hx.symm)]

/-- C1: when at MFS write-back time the stat of the MFS root returns a
hash different from lastPersistedHash, and some changed path of the local
diff and some changed path of the external diff are related by string
prefix, the write-back returns the concurrent-modification error and
issues no MFS write call at all (no files/cp, no files/rm). -/
theorem claim1_mfs_conflict_detection
    (api : Api) (lph h : String) (st : HasHash) (diff ediff : ObjectDiff)
    (hstat : api.filesStat "/" = .ok st)
    (hdiff : api.objectDiff lph h = .ok diff)
    (hsne : st.Hash ≠ lph)
    (hediff : api.objectDiff st.Hash lph = .ok ediff)
    (hconf : ∃ pe ∈ listChangedPath ediff.Changes, ∃ pl ∈ listChangedPath diff.Changes,
        goHasPre pe pl = true ∨ goHasPre pl pe = true) :
    (persistToMFS api lph h).1 =
      .error "Error: concurrent modification of the IPFS MFS. Consistency not guaranteed." ∧
    ∀ c ∈ (persistToMFS api lph h).2, c.isMfsWrite = false := by
  rw [persistToMFS_conflict_eq api lph h st diff ediff hstat hdiff hsne hediff hconf]
  exact ⟨rfl, by simp [Call.isMfsWrite]⟩

/-- C1 witness: on the concrete conflicting fixture (local diff changes
a/b, external diff changes a/b/c), the MFS write-back returns the
concurrent-modification error and the trace holds no MFS write. -/
theorem claim1_witness :
    (persistToMFS apiMfsConflict "h0" "h1").1 =
      .error "Error: concurrent modification of the IPFS MFS. Consistency not guaranteed." :=
  (claim1_mfs_conflict_detection apiMfsConflict "h0" "h1" { Hash := "hext" }
      { Changes := [{ Path := "a/b" }] } { Changes := [{ Path := "a/b/c" }] }
      rfl rfl (by decide) rfl (by decide)).1

/-- C4 witness: on the concrete fixture whose name resolves to hx while
the baseline is h0, the write-back returns the conflict error. -/
theorem claim4_witness :
    (persistToIPNS apiIpnsConflict "h0" "h1" "/ipns/k1" "key1").1 =
      .error "concurrent modification of the IPFS IPNS. Consistency not guaranteed." :=
  (claim4_ipns_conflict_detection.1 apiIpnsConflict "h0" "h1" "/ipns/k1" "key1"
      { Path := "/ipfs/hx" } rfl (by decide)).1

/-- C8 counterexample: on a concrete conflicting MFS state the persist
attempt does not return normally but raises a panic carrying the conflict
error, terminating the process; there is no surfaced warning followed by a
retry on the next periodic cycle, because the periodic rescheduling in the
source runs only after persist returns. -/
theorem claim8_counterexample :
    (Root.persist apiMfsConflict rootNe).1 =
      PersistOutcome.panicked
        "Error: concurrent modification of the IPFS MFS. Consistency not guaranteed." ∧
    (Root.persist apiMfsConflict rootNe).1 ≠ PersistOutcome.ok := by
  refine ⟨by decide, by decide⟩

/-- C8 (amended): whenever the MFS or IPNS write-back detects an external
modification, the persist attempt aborts entirely: lastPersistedHash and
the in-memory hash are left unchanged, no MFS write call and no publish
call is issued, and the conflict error is raised as a panic (terminating
the process rather than being logged as a warning and retried on the next
periodic cycle). -/
theorem claim8_conflict_aftermath :
    (∀ (api : Api) (r : Root) (st : HasHash) (diff ediff : ObjectDiff),
        r.isMFS = true →
        r.hash ≠ r.lastPersistedHash →
        (updatePin api r.lastPersistedHash r.hash).1 = .ok () →
        api.filesStat "/" = .ok st →
        api.objectDiff r.lastPersistedHash r.hash = .ok diff →
        st.Hash ≠ r.lastPersistedHash →
        api.objectDiff st.Hash r.lastPersistedHash = .ok ediff →
        (∃ pe ∈ listChangedPath ediff.Changes, ∃ pl ∈ listChangedPath diff.Changes,
            goHasPre pe pl = true ∨ goHasPre pl pe = true) →
        Root.persist api r =
          (.panicked "Error: concurrent modification of the IPFS MFS. Consistency not guaranteed.",
           r,
           (updatePin api r.lastPersistedHash r.hash).2 ++
             [Call.filesStat "/", Call.objectDiff r.lastPersistedHash r.hash,
              Call.objectDiff st.Hash r.lastPersistedHash]) ∧
        ∀ c ∈ (Root.persist api r).2.2, c.isMfsWrite = false) ∧
    (∀ (api : Api) (r : Root) (res : HasPath),
        r.isMFS = false →
        r.ipnsKey ≠ "" →
        r.hash ≠ r.lastPersistedHash →
        (updatePin api r.lastPersistedHash r.hash).1 = .ok () →
        api.nameResolve r.ipnsPath = .ok res →
        goPathSplitFile res.Path ≠ r.lastPersistedHash →
        Root.persist api r =
          (.panicked "concurrent modification of the IPFS IPNS. Consistency not guaranteed.",
           r, (updatePin api r.lastPersistedHash r.hash).2 ++ [Call.nameResolve r.ipnsPath]) ∧
        ∀ c ∈ (Root.persist api r).2.2, c.isNamePublish = false) := by
  constructor
  · intro api r st diff ediff hm hne hup hstat hdiff hsne hediff hconf
    have hmfs := persistToMFS_conflict_eq api r.lastPersistedHash r.hash st diff ediff
      hstat hdiff hsne hediff hconf
    have hwb : Root.persistWriteBack api r =
        persistToMFS api r.lastPersistedHash r.hash := by
      simp [Root.persistWriteBack, hm]
    rcases hu : updatePin api r.lastPersistedHash r.hash with ⟨ur, ut⟩
    rw [hu] at hup
    dsimp only at hup
    subst hup
    have hpersist : Root.persist api r =
        (.panicked "Error: concurrent modification of the IPFS MFS. Consistency not guaranteed.",
         r, ut ++ [Call.filesStat "/", Call.objectDiff r.lastPersistedHash r.hash,
                   Call.objectDiff st.Hash r.lastPersistedHash]) := by
      unfold Root.persist
      rw [if_neg hne, hu]
      dsimp only
      rw [hwb, hmfs]
    constructor
    · simp only [hu]
      exact hpersist
    · rw [hpersist]
      intro c hc
      rcases List.mem_append.mp hc with hct | hcp
      · rcases updatePin_trace_shape api r.lastPersistedHash r.hash with hsh | hsh <;>
          rw [hu] at hsh <;> dsimp only at hsh <;> rw [hsh] at hct <;>
          simp only [List.mem_cons, List.mem_singleton, List.not_mem_nil, or_false] at hct
        · rw [hct]; rfl
        · rcases hct with hct | hct <;> rw [hct] <;> rfl
      · simp only [List.mem_cons, List.not_mem_nil, or_false] at hcp
        rcases hcp with hct | hct | hct <;> rw [hct] <;> rfl
  · intro api r res hm hk hne hup hres hrne
    have hipns := persistToIPNS_conflict_eq api r.lastPersistedHash r.hash r.ipnsPath
      r.ipnsKey res hres hrne
    have hwb : Root.persistWriteBack api r =
        persistToIPNS api r.lastPersistedHash r.hash r.ipnsPath r.ipnsKey := by
      simp [Root.persistWriteBack, hm, hk]
    rcases hu : updatePin api r.lastPersistedHash r.hash with ⟨ur, ut⟩
    rw [hu] at hup
    dsimp only at hup
    subst hup
    have hpersist : Root.persist api r =
        (.panicked "concurrent modification of the IPFS IPNS. Consistency not guaranteed.",
         r, ut ++ [Call.nameResolve r.ipnsPath]) := by
      unfold Root.persist
      rw [if_neg hne, hu]
      dsimp only
      rw [hwb, hipns]
    constructor
    · simp only [hu]
      exact hpersist
    · rw [hpersist]
      intro c hc
      rcases List.mem_append.mp hc with hct | hcp
      · rcases updatePin_trace_shape api r.lastPersistedHash r.hash with hsh | hsh <;>
          rw [hu] at hsh <;> dsimp only at hsh <;> rw [hsh] at hct <;>
          simp only [List.mem_cons, List.mem_singleton, List.not_mem_nil, or_false] at hct
        · rw [hct]; rfl
        · rcases hct with hct | hct <;> rw [hct] <;> rfl
      · simp only [List.mem_cons, List.not_mem_nil, or_false] at hcp
        rw [hcp]; rfl

/-- C8 witness: on the concrete conflicting fixtures, the MFS persist
panics with the conflict error and an unchanged root, and so does the IPNS
persist. -/
theorem claim8_witness :
    Root.persist apiMfsConflict rootNe =
      (.panicked "Error: concurrent modification of the IPFS MFS. Consistency not guaranteed.",
       rootNe,
       (updatePin apiMfsConflict "h0" "h1").2 ++
         [Call.filesStat "/", Call.objectDiff "h0" "h1", Call.objectDiff "hext" "h0"]) ∧
    Root.persist apiIpnsConflict rootIpnsNe =
      (.panicked "concurrent modification of the IPFS IPNS. Consistency not guaranteed.",
       rootIpnsNe, (updatePin apiIpnsConflict "h0" "h1").2 ++ [Call.nameResolve "/ipns/k1"]) :=
  ⟨(claim8_conflict_aftermath.1 apiMfsConflict rootNe { Hash := "hext" }
      { Changes := [{ Path := "a/b" }] } { Changes := [{ Path := "a/b/c" }] }
      rfl (by decide) rfl rfl rfl (by decide) rfl (by decide)).1,
   (claim8_conflict_aftermath.2 apiIpnsConflict rootIpnsNe { Path := "/ipfs/hx" }
      rfl (by decide) (by decide) rfl rfl (by decide)).1⟩

theorem SharedRoots.lookup_eq_none_iff (s : SharedRoots) (o : Options) :
    s.lookup o = none ↔ ∀ p ∈ s.cache, p.1 ≠ o := by
  unfold SharedRoots.lookup
  rw [Option.map_eq_none', List.find?_eq_none]
  simp

theorem SharedRoots.mem_of_lookup (s : SharedRoots) (o : Options) (r : Nat)
    (h : s.lookup o = some r) : (o, r) ∈ s.cache := by
  unfold SharedRoots.lookup at h
  rcases hf : s.cache.find? (fun p => p.1 = o) with _ | p
  · rw [hf] at h; simp at h
  · rw [hf] at h
    simp only [Option.map_some', Option.some.injEq] at h
    have hmem := List.mem_of_find?_eq_some hf
    have hp := List.find?_some hf
    simp only [decide_eq_true_eq] at hp
    rw [← h, ← hp]
    exact hmem

theorem SharedRoots.getOrCreate_inv (s : SharedRoots) (o : Options)
    (hinv : s.Inv) : (s.getOrCreate o).2.Inv := by
  unfold SharedRoots.getOrCreate
  rcases hl : s.lookup o with _ | r
  · refine ⟨?_, ?_⟩
    · intro p hp
      rcases List.mem_cons.mp hp with rfl | hp
      · exact Nat.lt_succ_self _
      · exact Nat.lt_succ_of_lt (hinv.1 p hp)
    · refine List.pairwise_cons.mpr ⟨?_, hinv.2⟩
      intro q hq
      refine ⟨fun hk => ?_, fun hr => ?_⟩
      · exact (SharedRoots.lookup_eq_none_iff s o).mp hl q hq hk.symm
      · exact Nat.lt_irrefl _ (hr ▸ hinv.1 q hq)
  · exact hinv

/-- C9: under the registry invariant, two requests with identical
configuration return the same shared instance, two sequential requests
with differing configurations return distinct instances, the invariant is
preserved, and the cache keeps at most one entry per configuration. -/
theorem claim9_registry_dedup (s : SharedRoots) (o o1 o2 : Options)
    (hinv : s.Inv) :
    (((s.getOrCreate o).2.getOrCreate o).1 = (s.getOrCreate o).1) ∧
    (o1 ≠ o2 → ((s.getOrCreate o1).2.getOrCreate o2).1 ≠ (s.getOrCreate o1).1) ∧
    (s.getOrCreate o).2.Inv ∧
    ((s.getOrCreate o).2.cache.map Prod.fst).Nodup := by
  have hsymm : Symmetric (fun p q : Options × Nat => p.1 ≠ q.1 ∧ p.2 ≠ q.2) :=
    fun p q h => ⟨h.1.symm, h.2.symm⟩
  refine ⟨?_, ?_, SharedRoots.getOrCreate_inv s o hinv, ?_⟩
  · unfold SharedRoots.getOrCreate
    rcases hl : s.lookup o with _ | r
    · dsimp only
      have hl2 : SharedRoots.lookup
          { cache := (o, s.nextRef) :: s.cache, nextRef := s.nextRef + 1 } o =
          some s.nextRef := by
        unfold SharedRoots.lookup
        simp [List.find?_cons]
      rw [hl2]
    · rw [hl]
  · intro hne
    rcases hl1 : s.lookup o1 with _ | r1
    · have h1 : s.getOrCreate o1 =
          (s.nextRef, { cache := (o1, s.nextRef) :: s.cache, nextRef := s.nextRef + 1 }) := by
        unfold SharedRoots.getOrCreate
        rw [hl1]
      rw [h1]
      dsimp only
      rcases hl2 : SharedRoots.lookup
          { cache := (o1, s.nextRef) :: s.cache, nextRef := s.nextRef + 1 } o2 with _ | r2
      · have h2 : SharedRoots.getOrCreate
            { cache := (o1, s.nextRef) :: s.cache, nextRef := s.nextRef + 1 } o2 =
            (s.nextRef + 1,
             { cache := (o2, s.nextRef + 1) :: (o1, s.nextRef) :: s.cache,
               nextRef := s.nextRef + 2 }) := by
          unfold SharedRoots.getOrCreate
          rw [hl2]
        rw [h2]
        exact Nat.succ_ne_self s.nextRef
      · have h2 : SharedRoots.getOrCreate
            { cache := (o1, s.nextRef) :: s.cache, nextRef := s.nextRef + 1 } o2 =
            (r2, { cache := (o1, s.nextRef) :: s.cache, nextRef := s.nextRef + 1 }) := by
          unfold SharedRoots.getOrCreate
          rw [hl2]
        rw [h2]
        have hmem := SharedRoots.mem_of_lookup _ o2 r2 hl2
        rcases List.mem_cons.mp hmem with hhead | htail
        · exact absurd (congrArg Prod.fst hhead).symm hne
        · exact Nat.ne_of_lt (hinv.1 _ htail)
    · have h1 : s.getOrCreate o1 = (r1, s) := by
        unfold SharedRoots.getOrCreate
        rw [hl1]
      rw [h1]
      dsimp only
      have hmem1 := SharedRoots.mem_of_lookup s o1 r1 hl1
      rcases hl2 : s.lookup o2 with _ | r2
      · have h2 : s.getOrCreate o2 =
            (s.nextRef, { cache := (o2, s.nextRef) :: s.cache, nextRef := s.nextRef + 1 }) := by
          unfold SharedRoots.getOrCreate
          rw [hl2]
        rw [h2]
        exact Nat.ne_of_gt (hinv.1 _ hmem1)
      · have h2 : s.getOrCreate o2 = (r2, s) := by
          unfold SharedRoots.getOrCreate
          rw [hl2]
        rw [h2]
        have hmem2 := SharedRoots.mem_of_lookup s o2 r2 hl2
        have hpair := List.Pairwise.forall hsymm hinv.2 hmem2 hmem1
          (fun hx => hne ((congrArg Prod.fst hx).symm))
        exact hpair.2
  · have hinv2 := SharedRoots.getOrCreate_inv s o hinv
    exact List.pairwise_map.mpr (hinv2.2.imp fun h => h.1)

/-- C9 witness: starting from the empty registry, creating under one
configuration, re-requesting it, and requesting a different configuration
exercises all parts of the statement on concrete data. -/
theorem claim9_witness :
    ((({} : SharedRoots).getOrCreate optsA).2.getOrCreate optsA).1 =
      (({} : SharedRoots).getOrCreate optsA).1 ∧
    ((({} : SharedRoots).getOrCreate optsA).2.getOrCreate optsB).1 ≠
      (({} : SharedRoots).getOrCreate optsA).1 :=
  ⟨(claim9_registry_dedup {} optsA optsA optsB ⟨by simp, by simp⟩).1,
   (claim9_registry_dedup {} optsA optsA optsB ⟨by simp, by simp⟩).2.1 (by decide)⟩

theorem emptyDirHash_inv (api : Api) (f : Fs) (hEmpty : String) (f1 : Fs)
    (t : List Call) (hed : Fs.emptyDirHash api f = (.ok (hEmpty, f1), t)) :
    f1.ipfsRoot = f.ipfsRoot ∧ (t = [] ∨ t = [Call.objectNewDir]) := by
  unfold Fs.emptyDirHash at hed
  split at hed
  · split at hed
    · simp at hed
    · simp only [Prod.mk.injEq, Except.ok.injEq] at hed
      obtain ⟨⟨h1, h2⟩, h3⟩ := hed
      exact ⟨by rw [← h2], Or.inr h3.symm⟩
  · simp only [Prod.mk.injEq, Except.ok.injEq] at hed
    obtain ⟨⟨h1, h2⟩, h3⟩ := hed
    exact ⟨by rw [← h2], Or.inl h3.symm⟩

/-- C10: when the directory path already exists under the current root
hash (its stat succeeds) on a writable filesystem, Mkdir returns success
without issuing any DAG patch call and with the root hash unchanged. -/
theorem claim10_mkdir_idempotent (api : Api) (f : Fs) (d hEmpty : String)
    (f1 : Fs) (t : List Call) (st : ObjectStat)
    (hro : f.ipfsRoot.isReadOnly = false)
    (hed : Fs.emptyDirHash api f = (.ok (hEmpty, f1), t))
    (hstat : api.objectStat (goPathJoin f1.ipfsRoot.hash (f1.relativePath d)) = .ok st) :
    (Fs.mkdir api f d).1 = none ∧
    (Fs.mkdir api f d).2.1.ipfsRoot.hash = f.ipfsRoot.hash ∧
    ∀ c ∈ (Fs.mkdir api f d).2.2, c.isPatch = false := by
  obtain ⟨hroot, ht⟩ := emptyDirHash_inv api f hEmpty f1 t hed
  have hco : f.checkReadOnly = none := by
    simp [Fs.checkReadOnly, hro]
  have hmk : Fs.mkdir api f d =
      (none, f1, t ++ [Call.objectStat (goPathJoin f1.ipfsRoot.hash (f1.relativePath d))]) := by
    unfold Fs.mkdir
    rw [hco]
    dsimp only
    rw [hed]
    dsimp only
    rw [hstat]
  rw [hmk]
  refine ⟨rfl, by rw [hroot], ?_⟩
  intro c hc
  rcases List.mem_append.mp hc with hct | hcs
  · rcases ht with rfl | rfl
    · simp at hct
    · simp only [List.mem_singleton] at hct
      rw [hct]; rfl
  · simp only [List.mem_singleton] at hcs
    rw [hcs]; rfl

/-- C7: every mutating entry point (Put, PutStream, Update, Remove,
Mkdir, Rmdir, Copy, Move, DirMove, MergeDirs, Purge) checks the read-only
flag first: on a read-only root it fails with the dedicated read-only
error, issues no network call, and leaves the state unchanged. -/
theorem claim7_read_only_fail_fast (api : Api) (f : Fs)
    (h : f.ipfsRoot.isReadOnly = true) :
    f.checkReadOnly = some ("IPFS path " ++ f.optIpfsRoot ++ " is read only!") ∧
    (∀ r, Fs.put api f r = (f.checkReadOnly, f, [])) ∧
    (∀ r, Fs.putStream api f r = (f.checkReadOnly, f, [])) ∧
    (∀ r, Object.update api f r = (f.checkReadOnly, f, [])) ∧
    (∀ o, Object.remove api f o = (f.checkReadOnly, f, [])) ∧
    (∀ d, Fs.mkdir api f d = (f.checkReadOnly, f, [])) ∧
    (∀ d, Fs.rmdir api f d = (f.checkReadOnly, f, [])) ∧
    (∀ o r, Fs.copy api f o r = (f.checkReadOnly, f, [])) ∧
    (∀ o r, Fs.move api f o r = (f.checkReadOnly, f, [])) ∧
    (∀ sr a b, Fs.dirMove api f sr a b = (f.checkReadOnly, f, [])) ∧
    (∀ d0 ds, Fs.mergeDirs api f d0 ds = (f.checkReadOnly, f, [])) ∧
    (Fs.purge api f = (f.checkReadOnly, f, [])) := by
  have hco : f.checkReadOnly = some ("IPFS path " ++ f.optIpfsRoot ++ " is read only!") := by
    simp [Fs.checkReadOnly, h]
  refine ⟨hco, ?_, ?_, ?_, ?_, ?_, ?_, ?_, ?_, ?_, ?_, ?_⟩ <;>
    intros <;>
    simp only [Fs.put, Fs.putStream, Object.update, Object.remove, Fs.mkdir, Fs.rmdir,
      Fs.copy, Fs.move, Fs.dirMove, Fs.mergeDirs, Fs.purge, hco]

/-- C7 witness: on the concrete read-only fixture, Put and Purge fail at
once with the dedicated read-only error, an unchanged state and an empty
trace. -/
theorem claim7_witness :
    Fs.put apiAllErr fsRO "x" = (some "IPFS path /ipfs/Qm is read only!", fsRO, []) ∧
    Fs.purge apiAllErr fsRO = (some "IPFS path /ipfs/Qm is read only!", fsRO, []) := by
  have h := claim7_read_only_fail_fast apiAllErr fsRO rfl
  constructor
  · rw [h.2.1 "x", h.1]
    rfl
  · rw [h.2.2.2.2.2.2.2.2.2.2.2, h.1]
    rfl

/-- C10 witness: on the concrete writable fixture with a cold empty-dir
cache and a stat environment where the directory already exists, Mkdir
succeeds, keeps the hash h0, and patches nothing. -/
theorem claim10_witness :
    (Fs.mkdir apiStatOk fsW "d").1 = none ∧
    (Fs.mkdir apiStatOk fsW "d").2.1.ipfsRoot.hash = "h0" :=
  have h := claim10_mkdir_idempotent apiStatOk fsW "d" "he"
    { fsW with emptyDirHashCache := "he" } [Call.objectNewDir] { }
    rfl rfl rfl
  ⟨h.1, h.2.1⟩

/-- C6 counterexample: DirMove stores a partial mid-operation hash. On a
concrete run whose add-link patch succeeds (intermediate hash h1) and
whose rm-link patch then fails, the operation aborts with the error yet
the root hash has been moved from h0 to the mid-operation value h1. -/
theorem claim6_counterexample :
    (Fs.dirMove apiDirMoveFail fsW "" "sub" "dst").1 = some "boom" ∧
    (Fs.dirMove apiDirMoveFail fsW "" "sub" "dst").2.1.ipfsRoot.hash = "h1" ∧
    fsW.ipfsRoot.hash = "h0" :=
  ⟨by decide, by decide, by decide⟩

/-- C6 (amended): a failing DAG patch aborts the operation with that
error. Put, Mkdir, Rmdir, Copy, Remove, Purge and MergeDirs leave the root
hash unchanged (MergeDirs threads its working hash locally and stores only
on full success). Move is copy-then-remove: a failing remove patch leaves
the hash stored by the completed copy. DirMove stores the intermediate
hash right after its add-link patch, so a failing rm-link patch leaves
that mid-operation hash in the root state. -/
theorem claim6_mutation_atomicity :
    (∀ (api : Api) (f : Fs) (r e : String) (fa : FileAdded),
        f.checkReadOnly = none →
        api.add ((goPathSplit r).2) = .ok fa →
        api.objectPatchAddLink f.ipfsRoot.hash (f.relativePath r) fa.Hash = .error e →
        Fs.put api f r =
          (some e, f, [Call.add (goPathSplit r).2,
            Call.patchAddLink f.ipfsRoot.hash (f.relativePath r) fa.Hash])) ∧
    (∀ (api : Api) (f : Fs) (d hEmpty e1 e : String) (f1 : Fs) (t : List Call),
        f.checkReadOnly = none →
        Fs.emptyDirHash api f = (.ok (hEmpty, f1), t) →
        api.objectStat (goPathJoin f1.ipfsRoot.hash (f1.relativePath d)) = .error e1 →
        api.objectPatchAddLink f1.ipfsRoot.hash (f1.relativePath d) hEmpty = .error e →
        (Fs.mkdir api f d).1 = some e ∧
        (Fs.mkdir api f d).2.1.ipfsRoot.hash = f.ipfsRoot.hash) ∧
    (∀ (api : Api) (f : Fs) (d e : String) (st : ObjectStat),
        f.checkReadOnly = none →
        api.objectStat (goPathJoin f.ipfsRoot.hash (f.relativePath d)) = .ok st →
        ¬ st.NumLinks > 0 →
        api.objectPatchRmLink f.ipfsRoot.hash (f.relativePath d) = .error e →
        Fs.rmdir api f d = (some e, f,
          [Call.objectStat (goPathJoin f.ipfsRoot.hash (f.relativePath d)),
           Call.patchRmLink f.ipfsRoot.hash (f.relativePath d)])) ∧
    (∀ (api : Api) (f : Fs) (r e : String) (src : Object),
        f.checkReadOnly = none →
        api.objectPatchAddLink f.ipfsRoot.hash (f.relativePath r) src.ipfsHash = .error e →
        Fs.copy api f src r =
          (some e, f, [Call.patchAddLink f.ipfsRoot.hash (f.relativePath r) src.ipfsHash])) ∧
    (∀ (api : Api) (f : Fs) (e : String) (o : Object),
        f.checkReadOnly = none →
        api.objectPatchRmLink f.ipfsRoot.hash (f.relativePath o.remote) = .error e →
        Object.remove api f o =
          (some e, f, [Call.patchRmLink f.ipfsRoot.hash (f.relativePath o.remote)])) ∧
    (∀ (api : Api) (f : Fs) (e : String),
        f.checkReadOnly = none →
        f.root ≠ "" →
        api.objectPatchRmLink f.ipfsRoot.hash f.root = .error e →
        Fs.purge api f = (some e, f, [Call.patchRmLink f.ipfsRoot.hash f.root])) ∧
    (∀ (api : Api) (f : Fs) (d0 : String) (ds : List String),
        (Fs.mergeDirs api f d0 ds).1 ≠ none →
        (Fs.mergeDirs api f d0 ds).2.1.ipfsRoot.hash = f.ipfsRoot.hash) ∧
    (∀ (api : Api) (f : Fs) (sr a b e1 e : String) (srcStat : ObjectStat),
        f.checkReadOnly = none →
        api.objectStat (goPathJoin f.ipfsRoot.hash (f.relativePath b)) = .error e1 →
        api.objectStat
          (goPathJoin f.ipfsRoot.hash (removeTrailingSlash (goPathJoin sr a))) = .ok srcStat →
        api.objectPatchAddLink f.ipfsRoot.hash (f.relativePath b) srcStat.Hash = .error e →
        (Fs.dirMove api f sr a b).1 = some e ∧
        (Fs.dirMove api f sr a b).2.1.ipfsRoot.hash = f.ipfsRoot.hash) ∧
    (∀ (api : Api) (f : Fs) (sr a b e1 e : String) (srcStat : ObjectStat) (result : HasHash),
        f.checkReadOnly = none →
        api.objectStat (goPathJoin f.ipfsRoot.hash (f.relativePath b)) = .error e1 →
        api.objectStat
          (goPathJoin f.ipfsRoot.hash (removeTrailingSlash (goPathJoin sr a))) = .ok srcStat →
        api.objectPatchAddLink f.ipfsRoot.hash (f.relativePath b) srcStat.Hash = .ok result →
        api.objectPatchRmLink result.Hash (removeTrailingSlash (goPathJoin sr a)) = .error e →
        (Fs.dirMove api f sr a b).1 = some e ∧
        (Fs.dirMove api f sr a b).2.1.ipfsRoot.hash = result.Hash) ∧
    (∀ (api : Api) (f f1 : Fs) (r e : String) (src : Object) (t : List Call),
        f.checkReadOnly = none →
        Fs.copy api f src r = (some e, f1, t) →
        Fs.move api f src r = (some e, f1, t)) ∧
    (∀ (api : Api) (f f1 : Fs) (r e : String) (src : Object) (t : List Call),
        f.checkReadOnly = none →
        Fs.copy api f src r = (none, f1, t) →
        f1.checkReadOnly = none →
        api.objectPatchRmLink f1.ipfsRoot.hash (f1.relativePath src.remote) = .error e →
        Fs.move api f src r =
          (some e, f1,
           t ++ [Call.patchRmLink f1.ipfsRoot.hash (f1.relativePath src.remote)])) := by
  refine ⟨?_, ?_, ?_, ?_, ?_, ?_, ?_, ?_, ?_, ?_, ?_⟩
  · intro api f r e fa hco hadd hpatch
    unfold Fs.put
    rw [hco]
    dsimp only
    rw [hadd]
    dsimp only
    rw [hpatch]
  · intro api f d hEmpty e1 e f1 t hco hed hstat hpatch
    obtain ⟨hroot, _⟩ := emptyDirHash_inv api f hEmpty f1 t hed
    have heq : Fs.mkdir api f d =
        (some e, f1,
         t ++ [Call.objectStat (goPathJoin f1.ipfsRoot.hash (f1.relativePath d)),
               Call.patchAddLink f1.ipfsRoot.hash (f1.relativePath d) hEmpty]) := by
      unfold Fs.mkdir
      rw [hco]
      dsimp only
      rw [hed]
      dsimp only
      rw [hstat]
      dsimp only
      rw [hpatch]
    rw [heq]
    exact ⟨rfl, by rw [hroot]⟩
  · intro api f d e st hco hstat hnl hpatch
    unfold Fs.rmdir
    rw [hco]
    dsimp only
    rw [hstat]
    dsimp only
    rw [if_neg hnl, hpatch]
  · intro api f r e src hco hpatch
    unfold Fs.copy
    rw [hco]
    dsimp only
    rw [hpatch]
  · intro api f e o hco hpatch
    unfold Object.remove
    rw [hco]
    dsimp only
    rw [hpatch]
  · intro api f e hco hroot hpatch
    unfold Fs.purge
    rw [hco]
    dsimp only
    rw [if_neg hroot, hpatch]
  · intro api f d0 ds hne
    rcases hc : f.checkReadOnly with _ | e
    · rcases hl : Fs.mergeDirsLoop api f (f.relativePath d0) f.ipfsRoot.hash ds with ⟨res, t⟩
      cases res with
      | error e2 =>
        have heq : Fs.mergeDirs api f d0 ds = (some e2, f, t) := by
          unfold Fs.mergeDirs
          rw [hc]
          dsimp only
          rw [hl]
        rw [heq]
      | ok w =>
        have heq : Fs.mergeDirs api f d0 ds =
            (none, { f with ipfsRoot := { f.ipfsRoot with hash := w } }, t) := by
          unfold Fs.mergeDirs
          rw [hc]
          dsimp only
          rw [hl]
        rw [heq] at hne
        simp at hne
    · have heq : Fs.mergeDirs api f d0 ds = (some e, f, []) := by
        unfold Fs.mergeDirs
        rw [hc]
      rw [heq]
  · intro api f sr a b e1 e srcStat hco hdst hsrc hpatch
    have heq : (Fs.dirMove api f sr a b) =
        (some e, f,
         [Call.objectStat (goPathJoin f.ipfsRoot.hash (f.relativePath b)),
          Call.objectStat (goPathJoin f.ipfsRoot.hash (removeTrailingSlash (goPathJoin sr a))),
          Call.patchAddLink f.ipfsRoot.hash (f.relativePath b) srcStat.Hash]) := by
      unfold Fs.dirMove
      rw [hco]
      dsimp only
      rw [hdst]
      dsimp only
      rw [hsrc]
      dsimp only
      rw [hpatch]
    rw [heq]
    exact ⟨rfl, rfl⟩
  · intro api f sr a b e1 e srcStat result hco hdst hsrc hadd hrm
    have heq : (Fs.dirMove api f sr a b) =
        (some e, { f with ipfsRoot := { f.ipfsRoot with hash := result.Hash } },
         [Call.objectStat (goPathJoin f.ipfsRoot.hash (f.relativePath b)),
          Call.objectStat (goPathJoin f.ipfsRoot.hash (removeTrailingSlash (goPathJoin sr a))),
          Call.patchAddLink f.ipfsRoot.hash (f.relativePath b) srcStat.Hash,
          Call.patchRmLink result.Hash (removeTrailingSlash (goPathJoin sr a))]) := by
      unfold Fs.dirMove
      rw [hco]
      dsimp only
      rw [hdst]
      dsimp only
      rw [hsrc]
      dsimp only
      rw [hadd]
      dsimp only
      rw [hrm]
    rw [heq]
    exact ⟨rfl, rfl⟩
  · intro api f f1 r e src t hco hcopy
    unfold Fs.move
    rw [hco]
    dsimp only
    rw [hcopy]
  · intro api f f1 r e src t hco hcopy hco1 hrm
    have hrm2 : Object.remove api f1 src =
        (some e, f1, [Call.patchRmLink f1.ipfsRoot.hash (f1.relativePath src.remote)]) := by
      unfold Object.remove
      rw [hco1]
      dsimp only
      rw [hrm]
    unfold Fs.move
    rw [hco]
    dsimp only
    rw [hcopy]
    dsimp only
    rw [hrm2]

/-- C6 witness: every operation conjunct of the amended statement
instantiated on concrete failing environments. -/
theorem claim6_witness :
    Fs.put apiPutFail fsW "x" =
      (some "no", fsW, [Call.add "x", Call.patchAddLink "h0" "x" "fa"]) ∧
    ((Fs.mkdir apiMkdirFail fsW "d").1 = some "no" ∧
      (Fs.mkdir apiMkdirFail fsW "d").2.1.ipfsRoot.hash = "h0") ∧
    Fs.rmdir apiStatOk fsW "d" =
      (some "no", fsW, [Call.objectStat "h0/d", Call.patchRmLink "h0" "d"]) ∧
    Fs.copy apiAllErr fsW objS "r" =
      (some "no", fsW, [Call.patchAddLink "h0" "r" "S"]) ∧
    Object.remove apiAllErr fsW objS =
      (some "no", fsW, [Call.patchRmLink "h0" "o"]) ∧
    Fs.purge apiAllErr fsWSub =
      (some "no", fsWSub, [Call.patchRmLink "h0" "sub"]) ∧
    (Fs.mergeDirs apiAllErr fsW "a" ["b"]).2.1.ipfsRoot.hash = "h0" ∧
    ((Fs.dirMove apiDirMoveFail1 fsW "" "sub" "dst").1 = some "no" ∧
      (Fs.dirMove apiDirMoveFail1 fsW "" "sub" "dst").2.1.ipfsRoot.hash = "h0") ∧
    ((Fs.dirMove apiDirMoveFail fsW "" "sub" "dst").1 = some "boom" ∧
      (Fs.dirMove apiDirMoveFail fsW "" "sub" "dst").2.1.ipfsRoot.hash = "h1") ∧
    Fs.move apiAllErr fsW objS "r" =
      (some "no", fsW, [Call.patchAddLink "h0" "r" "S"]) ∧
    Fs.move apiMoveRmFail fsW objS "r" =
      (some "boom",
       { root := "", optIpfsRoot := "",
         ipfsRoot := { lastPersistedHash := "h0", hash := "h1" }, emptyDirHashCache := "" },
       [Call.patchAddLink "h0" "r" "S", Call.objectStat "h1/r", Call.ls "h1/",
        Call.patchRmLink "h1" "o"]) := by
  refine ⟨?_, ?_, ?_, ?_, ?_, ?_, ?_, ?_, ?_, ?_, ?_⟩
  · exact claim6_mutation_atomicity.1 apiPutFail fsW "x" "no" { Hash := "fa" } rfl rfl rfl
  · exact claim6_mutation_atomicity.2.1 apiMkdirFail fsW "d" "he" "no" "no"
      { fsW with emptyDirHashCache := "he" } [Call.objectNewDir] rfl rfl rfl rfl
  · exact claim6_mutation_atomicity.2.2.1 apiStatOk fsW "d" "no" { } rfl rfl (by decide) rfl
  · exact claim6_mutation_atomicity.2.2.2.1 apiAllErr fsW "r" "no" objS rfl rfl
  · exact claim6_mutation_atomicity.2.2.2.2.1 apiAllErr fsW "no" objS rfl rfl
  · exact claim6_mutation_atomicity.2.2.2.2.2.1 apiAllErr fsWSub "no" rfl (by decide) rfl
  · exact claim6_mutation_atomicity.2.2.2.2.2.2.1 apiAllErr fsW "a" ["b"] (by decide)
  · exact claim6_mutation_atomicity.2.2.2.2.2.2.2.1 apiDirMoveFail1 fsW "" "sub" "dst"
      "nf" "no" { Hash := "S" } rfl rfl rfl rfl
  · exact claim6_mutation_atomicity.2.2.2.2.2.2.2.2.1 apiDirMoveFail fsW "" "sub" "dst"
      "nf" "boom" { Hash := "S" } { Hash := "h1" } rfl rfl rfl rfl rfl
  · exact claim6_mutation_atomicity.2.2.2.2.2.2.2.2.2.1 apiAllErr fsW fsW "r" "no" objS
      [Call.patchAddLink "h0" "r" "S"] rfl rfl
  · exact claim6_mutation_atomicity.2.2.2.2.2.2.2.2.2.2 apiMoveRmFail fsW
      { root := "", optIpfsRoot := "",
        ipfsRoot := { lastPersistedHash := "h0", hash := "h1" }, emptyDirHashCache := "" }
      "r" "boom" objS [Call.patchAddLink "h0" "r" "S", Call.objectStat "h1/r", Call.ls "h1/"]
      rfl rfl rfl rfl

end Ipfs
